import Mathlib

/-!
Verification of the mlpack KDE core (kde_impl.hpp, kde_rules.hpp), the CSV
transpose-parse retry loop (load_csv.hpp) and item-mean normalization
(item_mean_normalization.hpp), against the repository specification.

Conventions of the embedding:
- machine floating point is replaced by exact rational arithmetic;
- a dataset (arma::mat) is a list of columns, each column a list of rationals;
- spatial trees are binary trees whose leaves own lists of point indices;
- the kernel, the metric and the bounding-region bound computations are
  external collaborators and appear as function parameters;
- heap allocation of trees is an explicit heap of numbered slots, so that
  ownership and deep-copy claims are statable.
-/

namespace Mlpack

/-- A dense matrix, stored as its list of columns (points). -/
abbrev Mat : Type := List (List ℚ)

/-- A spatial tree node: either a leaf owning a list of point indices, or an
internal node owning two children.  The point range of an internal node is the
concatenation of the ranges of its children. -/
inductive KdTree where
  | leaf : List ℕ → KdTree
  | node : KdTree → KdTree → KdTree
deriving DecidableEq

/-- Point indices owned by a node (the point range of the node). -/
def KdTree.pts : KdTree → List ℕ
  | KdTree.leaf ps => ps
  | KdTree.node l r => l.pts ++ r.pts

/-- Everything a KDERules instance is bound to (kde_rules.hpp:26-33): the
kernel, the metric restricted to the two datasets, the bound-computation
capability of the bounding regions, the two error tolerances and the
oldFromNew query permutation. -/
structure KDEEnv where
  K : ℚ → ℚ
  d : ℕ → ℕ → ℚ
  minB : KdTree → KdTree → ℚ
  maxB : KdTree → KdTree → ℚ
  relError : ℚ
  absError : ℚ
  oldFromNew : ℕ → ℕ

/-- Exact contribution of reference points rs to query point q: the sum of
kernel.evaluate(distance(q,r)) over rs (the base-case computation of
KDERules::BaseCase, spec 4.3). -/
def contribExact (E : KDEEnv) (q : ℕ) (rs : List ℕ) : ℚ :=
  (rs.map fun r => E.K (E.d q r)).sum

/-- Midpoint aggregate credited to every query point of a pruned pair
(spec 4.3): ((min+max)/2) times the reference node cardinality. -/
def midCredit (E : KDEEnv) (qn rn : KdTree) : ℚ :=
  ((E.minB qn rn + E.maxB qn rn) / 2) * (rn.pts.length : ℚ)

/-- Modelled from the spec: the prune test of KDERules::Score.  The body of
KDERules::Score (kde_rules_impl.hpp) is not part of the repository slice; per
spec 4.3 a pair is prunable when (max - min) x |refNode| is within the error
allowance apportioned to the pair, the allowance being the per-point slice
absError + relError * minB summed over the reference node. -/
def prunableP (E : KDEEnv) (qn rn : KdTree) : Prop :=
  (E.maxB qn rn - E.minB qn rn) * (rn.pts.length : ℚ) ≤
    (E.absError + E.relError * E.minB qn rn) * (rn.pts.length : ℚ)

instance (E : KDEEnv) (qn rn : KdTree) : Decidable (prunableP E qn rn) :=
  inferInstanceAs (Decidable (_ ≤ _))

/-- Add amount f q at accumulator slot out q, for every q in qs (the loop that
credits each query point of a node, writing through the oldFromNew map). -/
def addAll (f : ℕ → ℚ) (out : ℕ → ℕ) : List ℕ → (ℕ → ℚ) → (ℕ → ℚ)
  | [], acc => acc
  | q :: qt, acc =>
      addAll f out qt (fun j => if j = out q then acc j + f q else acc j)

/-- Modelled from the spec: dual-tree traversal specialised to a leaf query
node (the query side cannot descend further).  The DualTreeTraverser body is
not part of the repository slice; per spec 4.2 the pair is scored first, a
prunable pair credits its aggregate and is skipped, a leaf/leaf pair runs the
base cases over the Cartesian product, otherwise the traversal descends into
the reference children. -/
def traverseLeaf (E : KDEEnv) (qs : List ℕ) : KdTree → (ℕ → ℚ) → (ℕ → ℚ)
  | rn, acc =>
    if prunableP E (KdTree.leaf qs) rn then
      addAll (fun _ => midCredit E (KdTree.leaf qs) rn) E.oldFromNew qs acc
    else
      match rn with
      | KdTree.leaf rs => addAll (fun q => contribExact E q rs) E.oldFromNew qs acc
      | KdTree.node rl rr => traverseLeaf E qs rr (traverseLeaf E qs rl acc)

/-- Modelled from the spec: the dual-tree traversal (spec 4.2).  A prunable
pair credits its aggregate to every query point of the query node; otherwise
an internal query node descends into its children, and a leaf query node
descends the reference side via traverseLeaf. -/
def traverse (E : KDEEnv) : KdTree → KdTree → (ℕ → ℚ) → (ℕ → ℚ)
  | KdTree.leaf qs, rn, acc => traverseLeaf E qs rn acc
  | KdTree.node ql qr, rn, acc =>
    if prunableP E (KdTree.node ql qr) rn then
      addAll (fun _ => midCredit E (KdTree.node ql qr) rn) E.oldFromNew
        (KdTree.node ql qr).pts acc
    else
      traverse E qr rn (traverse E ql rn acc)

/-- Sequence of node pairs scored by the traversal from a leaf query node, in
visit order. -/
def traverseLeafTrace (E : KDEEnv) (qs : List ℕ) : KdTree → List (KdTree × KdTree)
  | KdTree.leaf rs => [(KdTree.leaf qs, KdTree.leaf rs)]
  | KdTree.node rl rr =>
    (KdTree.leaf qs, KdTree.node rl rr) ::
      (if prunableP E (KdTree.leaf qs) (KdTree.node rl rr) then []
       else traverseLeafTrace E qs rl ++ traverseLeafTrace E qs rr)

/-- Sequence of node pairs scored by the dual-tree traversal, in visit order. -/
def traverseTrace (E : KDEEnv) : KdTree → KdTree → List (KdTree × KdTree)
  | KdTree.leaf qs, rn => traverseLeafTrace E qs rn
  | KdTree.node ql qr, rn =>
    (KdTree.node ql qr, rn) ::
      (if prunableP E (KdTree.node ql qr) rn then []
       else traverseTrace E ql rn ++ traverseTrace E qr rn)

/-- Validity of the external bound computation on one node pair: minB and maxB
really bound the kernel values of every represented point pair. -/
def pairOk (E : KDEEnv) (qn rn : KdTree) : Prop :=
  ∀ q ∈ qn.pts, ∀ r ∈ rn.pts,
    E.minB qn rn ≤ E.K (E.d q r) ∧ E.K (E.d q r) ≤ E.maxB qn rn

/-- Validity of the bound computation on every pair reachable from a leaf
query node. -/
def ValidLeaf (E : KDEEnv) (qs : List ℕ) : KdTree → Prop
  | KdTree.leaf rs => pairOk E (KdTree.leaf qs) (KdTree.leaf rs)
  | KdTree.node rl rr =>
      pairOk E (KdTree.leaf qs) (KdTree.node rl rr) ∧
      ValidLeaf E qs rl ∧ ValidLeaf E qs rr

/-- Validity of the bound computation on every node pair reachable by the
traversal. -/
def ValidOn (E : KDEEnv) : KdTree → KdTree → Prop
  | KdTree.leaf qs, rn => ValidLeaf E qs rn
  | KdTree.node ql qr, rn =>
      pairOk E (KdTree.node ql qr) rn ∧ ValidOn E ql rn ∧ ValidOn E qr rn

lemma validLeaf_of_pairOk (E : KDEEnv) (hok : ∀ qn rn, pairOk E qn rn)
    (qs : List ℕ) : ∀ rn, ValidLeaf E qs rn := by
  intro rn
  induction rn with
  | leaf rs => exact hok _ _
  | node rl rr ihl ihr => exact ⟨hok _ _, ihl, ihr⟩

lemma validOn_of_pairOk (E : KDEEnv) (hok : ∀ qn rn, pairOk E qn rn) :
    ∀ qn rn, ValidOn E qn rn := by
  intro qn
  induction qn with
  | leaf qs => intro rn; exact validLeaf_of_pairOk E hok qs rn
  | node ql qr ihl ihr => intro rn; exact ⟨hok _ _, ihl rn, ihr rn⟩

lemma addAll_ne (f : ℕ → ℚ) (out : ℕ → ℕ) (qs : List ℕ) (acc : ℕ → ℚ) (j : ℕ)
    (hj : ∀ q ∈ qs, out q ≠ j) : addAll f out qs acc j = acc j := by
  induction qs generalizing acc with
  | nil => rfl
  | cons a qt ih =>
      rw [addAll, ih _ (fun q hq => hj q (List.mem_cons_of_mem a hq))]
      have : j ≠ out a := fun h => hj a (List.mem_cons_self a qt) h.symm
      simp [this]

lemma addAll_mem (f : ℕ → ℚ) (out : ℕ → ℕ) (qs : List ℕ) (acc : ℕ → ℚ) (q : ℕ)
    (hinj : Function.Injective out) (hnd : qs.Nodup) (hq : q ∈ qs) :
    addAll f out qs acc (out q) = acc (out q) + f q := by
  induction qs generalizing acc with
  | nil => cases hq
  | cons a qt ih =>
      rw [addAll]
      rcases List.mem_cons.mp hq with rfl | hq'
      · have hne : ∀ p ∈ qt, out p ≠ out q := by
          intro p hp hpq
          exact (List.nodup_cons.mp hnd).1 (hinj hpq ▸ hp)
        rw [addAll_ne _ _ _ _ _ hne]
        simp
      · have hqa : q ≠ a := fun h => (List.nodup_cons.mp hnd).1 (h ▸ hq')
        rw [ih _ (List.nodup_cons.mp hnd).2 hq']
        have : out q ≠ out a := fun h => hqa (hinj h)
        simp [this]

lemma err_sum_nonneg (E : KDEEnv) (hrel : 0 ≤ E.relError) (habs : 0 ≤ E.absError)
    (hK : ∀ t, 0 ≤ E.K t) (q : ℕ) (rs : List ℕ) :
    0 ≤ (rs.map fun r => E.absError + E.relError * E.K (E.d q r)).sum := by
  apply List.sum_nonneg
  intro x hx
  obtain ⟨r, -, rfl⟩ := List.mem_map.mp hx
  exact add_nonneg habs (mul_nonneg hrel (hK _))

lemma prune_credit_bound (E : KDEEnv) (hrel : 0 ≤ E.relError)
    (qn rn : KdTree) (hp : prunableP E qn rn) (hok : pairOk E qn rn)
    (q : ℕ) (hq : q ∈ qn.pts) :
    |midCredit E qn rn - contribExact E q rn.pts| ≤
      (rn.pts.map fun r => E.absError + E.relError * E.K (E.d q r)).sum := by
  by_cases hne : rn.pts = []
  · simp [midCredit, contribExact, hne]
  · have hbounds : ∀ r ∈ rn.pts, E.minB qn rn ≤ E.K (E.d q r) ∧
        E.K (E.d q r) ≤ E.maxB qn rn := fun r hr => hok q hq r hr
    obtain ⟨r0, hr0⟩ := List.exists_mem_of_ne_nil rn.pts hne
    have hmM : E.minB qn rn ≤ E.maxB qn rn :=
      (hbounds r0 hr0).1.trans (hbounds r0 hr0).2
    have hL : (0 : ℚ) ≤ (rn.pts.length : ℚ) := Nat.cast_nonneg _
    have hlow : (rn.pts.length : ℚ) * E.minB qn rn ≤ contribExact E q rn.pts := by
      have := List.card_nsmul_le_sum (rn.pts.map fun r => E.K (E.d q r))
        (E.minB qn rn) (by
          intro x hx
          obtain ⟨r, hr, rfl⟩ := List.mem_map.mp hx
          exact (hbounds r hr).1)
      rwa [List.length_map, nsmul_eq_mul] at this
    have hhigh : contribExact E q rn.pts ≤ (rn.pts.length : ℚ) * E.maxB qn rn := by
      have := List.sum_le_card_nsmul (rn.pts.map fun r => E.K (E.d q r))
        (E.maxB qn rn) (by
          intro x hx
          obtain ⟨r, hr, rfl⟩ := List.mem_map.mp hx
          exact (hbounds r hr).2)
      rwa [List.length_map, nsmul_eq_mul] at this
    have step1 : |midCredit E qn rn - contribExact E q rn.pts| ≤
        (E.maxB qn rn - E.minB qn rn) * (rn.pts.length : ℚ) := by
      rw [abs_le]
      constructor
      · rw [midCredit]; linarith
      · rw [midCredit]; linarith
    have step3 : (E.absError + E.relError * E.minB qn rn) * (rn.pts.length : ℚ) ≤
        (rn.pts.map fun r => E.absError + E.relError * E.K (E.d q r)).sum := by
      have := List.card_nsmul_le_sum
        (rn.pts.map fun r => E.absError + E.relError * E.K (E.d q r))
        (E.absError + E.relError * E.minB qn rn) (by
          intro x hx
          obtain ⟨r, hr, rfl⟩ := List.mem_map.mp hx
          have := mul_le_mul_of_nonneg_left (hbounds r hr).1 hrel
          linarith)
      rw [List.length_map, nsmul_eq_mul] at this
      linarith [this]
    exact step1.trans (hp.trans step3)

lemma traverseLeaf_ne (E : KDEEnv) (qs : List ℕ) :
    ∀ (rn : KdTree) (acc : ℕ → ℚ) (j : ℕ), (∀ q ∈ qs, E.oldFromNew q ≠ j) →
      traverseLeaf E qs rn acc j = acc j := by
  intro rn
  induction rn with
  | leaf rs =>
      intro acc j hj
      rw [traverseLeaf]
      split
      · exact addAll_ne _ _ _ _ _ hj
      · exact addAll_ne _ _ _ _ _ hj
  | node rl rr ihl ihr =>
      intro acc j hj
      rw [traverseLeaf]
      split
      · exact addAll_ne _ _ _ _ _ hj
      · rw [ihr _ _ hj, ihl _ _ hj]

lemma traverse_ne (E : KDEEnv) :
    ∀ (qn rn : KdTree) (acc : ℕ → ℚ) (j : ℕ),
      (∀ q ∈ qn.pts, E.oldFromNew q ≠ j) → traverse E qn rn acc j = acc j := by
  intro qn
  induction qn with
  | leaf qs => intro rn acc j hj; exact traverseLeaf_ne E qs rn acc j hj
  | node ql qr ihl ihr =>
      intro rn acc j hj
      rw [traverse]
      split
      · exact addAll_ne _ _ _ _ _ hj
      · have hjl : ∀ q ∈ ql.pts, E.oldFromNew q ≠ j := by
          intro q hq
          exact hj q (by rw [KdTree.pts]; exact List.mem_append_left _ hq)
        have hjr : ∀ q ∈ qr.pts, E.oldFromNew q ≠ j := by
          intro q hq
          exact hj q (by rw [KdTree.pts]; exact List.mem_append_right _ hq)
        rw [ihr _ _ _ hjr, ihl _ _ _ hjl]

lemma traverseLeaf_bound (E : KDEEnv) (hrel : 0 ≤ E.relError) (habs : 0 ≤ E.absError)
    (hK : ∀ t, 0 ≤ E.K t) (hinj : Function.Injective E.oldFromNew)
    (qs : List ℕ) (hnd : qs.Nodup) (q : ℕ) (hq : q ∈ qs) :
    ∀ (rn : KdTree) (acc : ℕ → ℚ), ValidLeaf E qs rn →
      |traverseLeaf E qs rn acc (E.oldFromNew q) - acc (E.oldFromNew q) -
          contribExact E q rn.pts| ≤
        (rn.pts.map fun r => E.absError + E.relError * E.K (E.d q r)).sum := by
  intro rn
  induction rn with
  | leaf rs =>
      intro acc hval
      have hok : pairOk E (KdTree.leaf qs) (KdTree.leaf rs) := hval
      rw [traverseLeaf]
      split
      case isTrue hp =>
        rw [addAll_mem _ _ _ _ _ hinj hnd hq]
        have hb := prune_credit_bound E hrel (KdTree.leaf qs) (KdTree.leaf rs) hp hok q hq
        have harith : acc (E.oldFromNew q) + midCredit E (KdTree.leaf qs) (KdTree.leaf rs) -
            acc (E.oldFromNew q) - contribExact E q (KdTree.leaf rs).pts =
            midCredit E (KdTree.leaf qs) (KdTree.leaf rs) -
              contribExact E q (KdTree.leaf rs).pts := by ring
        rw [harith]
        exact hb
      case isFalse =>
        rw [addAll_mem _ _ _ _ _ hinj hnd hq]
        have harith : acc (E.oldFromNew q) + contribExact E q rs - acc (E.oldFromNew q) -
            contribExact E q (KdTree.leaf rs).pts = 0 := by
          rw [KdTree.pts]; ring
        rw [harith, abs_zero]
        exact err_sum_nonneg E hrel habs hK q _
  | node rl rr ihl ihr =>
      intro acc hval
      obtain ⟨hok, hvl, hvr⟩ := hval
      rw [traverseLeaf]
      split
      case isTrue hp =>
        rw [addAll_mem _ _ _ _ _ hinj hnd hq]
        have hb := prune_credit_bound E hrel (KdTree.leaf qs) (KdTree.node rl rr) hp hok q hq
        have harith : acc (E.oldFromNew q) + midCredit E (KdTree.leaf qs) (KdTree.node rl rr) -
            acc (E.oldFromNew q) - contribExact E q (KdTree.node rl rr).pts =
            midCredit E (KdTree.leaf qs) (KdTree.node rl rr) -
              contribExact E q (KdTree.node rl rr).pts := by ring
        rw [harith]
        exact hb
      case isFalse =>
        have h1 := ihl acc hvl
        have h2 := ihr (traverseLeaf E qs rl acc) hvr
        have hsplit : contribExact E q (KdTree.node rl rr).pts =
            contribExact E q rl.pts + contribExact E q rr.pts := by
          simp [contribExact, KdTree.pts]
        have hsum : ((KdTree.node rl rr).pts.map
              fun r => E.absError + E.relError * E.K (E.d q r)).sum =
            (rl.pts.map fun r => E.absError + E.relError * E.K (E.d q r)).sum +
            (rr.pts.map fun r => E.absError + E.relError * E.K (E.d q r)).sum := by
          simp [KdTree.pts]
        rw [hsplit, hsum]
        have harith : traverseLeaf E qs rr (traverseLeaf E qs rl acc) (E.oldFromNew q) -
            acc (E.oldFromNew q) -
            (contribExact E q rl.pts + contribExact E q rr.pts) =
            (traverseLeaf E qs rr (traverseLeaf E qs rl acc) (E.oldFromNew q) -
              traverseLeaf E qs rl acc (E.oldFromNew q) - contribExact E q rr.pts) +
            (traverseLeaf E qs rl acc (E.oldFromNew q) - acc (E.oldFromNew q) -
              contribExact E q rl.pts) := by ring
        rw [harith]
        refine (abs_add _ _).trans ?_
        rw [add_comm]
        exact add_le_add h1 h2

lemma traverse_bound (E : KDEEnv) (hrel : 0 ≤ E.relError) (habs : 0 ≤ E.absError)
    (hK : ∀ t, 0 ≤ E.K t) (hinj : Function.Injective E.oldFromNew) :
    ∀ (qn : KdTree), qn.pts.Nodup → ∀ q ∈ qn.pts,
      ∀ (rn : KdTree) (acc : ℕ → ℚ), ValidOn E qn rn →
        |traverse E qn rn acc (E.oldFromNew q) - acc (E.oldFromNew q) -
            contribExact E q rn.pts| ≤
          (rn.pts.map fun r => E.absError + E.relError * E.K (E.d q r)).sum := by
  intro qn
  induction qn with
  | leaf qs =>
      intro hnd q hq rn acc hval
      rw [traverse]
      exact traverseLeaf_bound E hrel habs hK hinj qs hnd q hq rn acc hval
  | node ql qr ihl ihr =>
      intro hnd q hq rn acc hval
      obtain ⟨hok, hvl, hvr⟩ := hval
      have hnd2 : (ql.pts ++ qr.pts).Nodup := by rw [KdTree.pts] at hnd; exact hnd
      have hndl : ql.pts.Nodup := (List.nodup_append.mp hnd2).1
      have hndr : qr.pts.Nodup := (List.nodup_append.mp hnd2).2.1
      have hdisj := (List.nodup_append.mp hnd2).2.2
      have hq2 : q ∈ ql.pts ++ qr.pts := by rw [KdTree.pts] at hq; exact hq
      rw [traverse]
      split
      case isTrue hp =>
        rw [addAll_mem _ _ _ _ _ hinj hnd hq]
        have hb := prune_credit_bound E hrel (KdTree.node ql qr) rn hp hok q hq
        have harith : acc (E.oldFromNew q) + midCredit E (KdTree.node ql qr) rn -
            acc (E.oldFromNew q) - contribExact E q rn.pts =
            midCredit E (KdTree.node ql qr) rn - contribExact E q rn.pts := by ring
        rw [harith]
        exact hb
      case isFalse =>
        rcases List.mem_append.mp hq2 with hql | hqr
        · have h1 := ihl hndl q hql rn acc hvl
          have hfr : traverse E qr rn (traverse E ql rn acc) (E.oldFromNew q) =
              traverse E ql rn acc (E.oldFromNew q) := by
            apply traverse_ne
            intro p hp hpj
            exact hdisj hql (hinj hpj ▸ hp)
          rw [hfr]
          exact h1
        · have hfr : traverse E ql rn acc (E.oldFromNew q) = acc (E.oldFromNew q) := by
            apply traverse_ne
            intro p hp hpj
            exact hdisj hp (hinj hpj ▸ hqr)
          have h2 := ihr hndr q hqr rn (traverse E ql rn acc) hvr
          rw [hfr] at h2
          exact h2

/-- The external collaborators the KDE facade is templated over: tree
construction (BuildTree with an oldFromNew output and the tree constructor
used by Train, which also returns the dataset as stored by the tree), the
kernel, the metric on dataset columns, and the bounding-region bound
computations. -/
structure Externals where
  buildTree : Mat → KdTree × (ℕ → ℕ) × Mat
  buildRefTree : Mat → KdTree × Mat
  K : ℚ → ℚ
  dist : Mat → Mat → ℕ → ℕ → ℚ
  minB : Mat → Mat → KdTree → KdTree → ℚ
  maxB : Mat → Mat → KdTree → KdTree → ℚ

/-- Errors of the error taxonomy (spec section 7), plus undefined behavior for
executions the C++ leaves undefined (reading an uninitialized pointer). -/
inductive KDEError where
  | configurationError
  | preconditionError
  | undefinedBehavior
deriving DecidableEq

/-- The fields of a KDE object (kde_impl.hpp:48-58).  The kernel owned by the
object is represented by its bandwidth.  referenceTree = none represents the
pointer member that the constructor leaves uninitialized. -/
structure KDEConfig where
  bandwidth : ℚ
  relError : ℚ
  absError : ℚ
  breadthFirst : Bool
  ownsReferenceTree : Bool
  trained : Bool
  referenceTree : Option ℕ
deriving DecidableEq

/-- Explicit heap of tree allocations, so that ownership, destruction and deep
copies are observable: live ids, and per id the dataset stored by the tree and
its node structure. -/
structure Heap where
  nextId : ℕ
  live : List ℕ
  dataMat : ℕ → Mat
  dataTree : ℕ → KdTree

namespace KDE

/-- KDE::KDE (kde_impl.hpp:48-65): stores the configuration; Log::Fatal
(modelled as a ConfigurationError) iff relError < 0 or absError < 0.  The
referenceTree pointer member is left uninitialized (none). -/
def construct (bandwidth relError absError : ℚ) (breadthFirst : Bool) :
    Except KDEError KDEConfig :=
  if relError < 0 ∨ absError < 0 then Except.error KDEError.configurationError
  else Except.ok { bandwidth := bandwidth, relError := relError, absError := absError,
                   breadthFirst := breadthFirst, ownsReferenceTree := false,
                   trained := false, referenceTree := none }

/-- KDE::RelativeError (kde_impl.hpp:249-257): Log::Fatal iff the new value is
outside [0, 1], otherwise the tolerance is mutated. -/
def RelativeError (s : KDEConfig) (newError : ℚ) : Except KDEError KDEConfig :=
  if newError < 0 ∨ 1 < newError then Except.error KDEError.configurationError
  else Except.ok { s with relError := newError }

/-- KDE::AbsoluteError (kde_impl.hpp:264-273): Log::Fatal iff the new value is
negative, otherwise the tolerance is mutated. -/
def AbsoluteError (s : KDEConfig) (newError : ℚ) : Except KDEError KDEConfig :=
  if newError < 0 then Except.error KDEError.configurationError
  else Except.ok { s with absError := newError }

/-- KDE::Train(const MatType&) (kde_impl.hpp:135-141): builds a new tree over
the reference set (a fresh heap allocation), takes ownership, marks the
instance trained.  (As in the source, a previously owned tree is not
released here.) -/
def Train (X : Externals) (h : Heap) (s : KDEConfig) (referenceSet : Mat) :
    Heap × KDEConfig :=
  ({ nextId := h.nextId + 1,
     live := h.nextId :: h.live,
     dataMat := fun i => if i = h.nextId then (X.buildRefTree referenceSet).2
                         else h.dataMat i,
     dataTree := fun i => if i = h.nextId then (X.buildRefTree referenceSet).1
                          else h.dataTree i },
   { s with ownsReferenceTree := true, referenceTree := some h.nextId,
            trained := true })

/-- KDE::Train(Tree&) (kde_impl.hpp:149-157): deletes the previously owned
tree if any, then adopts the tree of the caller without taking ownership and marks
the instance trained. -/
def TrainTree (h : Heap) (s : KDEConfig) (extTree : ℕ) : Heap × KDEConfig :=
  let h2 :=
    if s.ownsReferenceTree then
      match s.referenceTree with
      | some t => { h with live := h.live.erase t }
      | none => h
    else h
  (h2, { s with ownsReferenceTree := false, referenceTree := some extTree,
                trained := true })

/-- KDE::KDE(const KDE&) (kde_impl.hpp:73-88): copies the kernel and every
scalar field; if the source is trained and owns its tree, allocates a fresh
deep copy of that tree, and if it is trained but borrowing, shares the same
pointer.  If the source is untrained the referenceTree member of the copy is
left uninitialized. -/
def copy (h : Heap) (s : KDEConfig) : Heap × KDEConfig :=
  if s.trained then
    if s.ownsReferenceTree then
      match s.referenceTree with
      | some t =>
          ({ nextId := h.nextId + 1,
             live := h.nextId :: h.live,
             dataMat := fun i => if i = h.nextId then h.dataMat t else h.dataMat i,
             dataTree := fun i => if i = h.nextId then h.dataTree t else h.dataTree i },
           { s with referenceTree := some h.nextId })
      | none => (h, { s with referenceTree := none })
    else (h, s)
  else (h, { s with referenceTree := none })

/-- The KDERules environment Evaluate builds (kde_impl.hpp:170-179): the rules
are bound to the dataset of the reference tree, the dataset of the query tree, the two
tolerances, the oldFromNew query permutation, the metric and the kernel. -/
def mkEnv (X : Externals) (refSet querySet : Mat) (relError absError : ℚ)
    (oldFromNew : ℕ → ℕ) : KDEEnv :=
  { K := X.K,
    d := fun q r => X.dist querySet refSet q r,
    minB := X.minB querySet refSet,
    maxB := X.maxB querySet refSet,
    relError := relError,
    absError := absError,
    oldFromNew := oldFromNew }

/-- KDE::Evaluate (kde_impl.hpp:165-214): builds a query tree over the query
set (capturing oldFromNewQueries), runs the dual-tree traversal with a
KDERules instance, then divides the accumulator by the reference-set
cardinality.  The code performs no trained check: on a never-trained
instance it reads the uninitialized referenceTree pointer, which is
undefined behavior. -/
def Evaluate (X : Externals) (h : Heap) (s : KDEConfig) (querySet : Mat) :
    Except KDEError (ℕ → ℚ) :=
  match s.referenceTree with
  | none => Except.error KDEError.undefinedBehavior
  | some rt =>
      Except.ok fun j =>
        traverse
          (mkEnv X (h.dataMat rt) (X.buildTree querySet).2.2 s.relError s.absError
            (X.buildTree querySet).2.1)
          (X.buildTree querySet).1 (h.dataTree rt) (fun _ => 0) j /
        ((h.dataMat rt).length : ℚ)

/-- The sequence of node pairs the traversal launched by KDE::Evaluate scores,
in visit order (none when Evaluate is undefined behavior).  The traverser
constructed at kde_impl.hpp:180-182 is the same whatever the breadthFirst
flag holds. -/
def EvaluateTrace (X : Externals) (h : Heap) (s : KDEConfig) (querySet : Mat) :
    Option (List (KdTree × KdTree)) :=
  match s.referenceTree with
  | none => none
  | some rt =>
      some (traverseTrace
        (mkEnv X (h.dataMat rt) (X.buildTree querySet).2.2 s.relError s.absError
          (X.buildTree querySet).2.1)
        (X.buildTree querySet).1 (h.dataTree rt))

end KDE

/-- Brute-force density: the sum of kernel.evaluate(distance(q,r)) over all N
reference points, divided by N. -/
def exactDensity (X : Externals) (querySet refSet : Mat) (N q : ℕ) : ℚ :=
  ((List.range N).map fun r => X.K (X.dist querySet refSet q r)).sum / (N : ℚ)

lemma sum_map_add_mul (c rel : ℚ) (f : ℕ → ℚ) (l : List ℕ) :
    (l.map fun r => c + rel * f r).sum = (l.length : ℚ) * c + rel * (l.map f).sum := by
  induction l with
  | nil => simp
  | cons a t ih =>
      simp only [List.map_cons, List.sum_cons, List.length_cons, ih]
      push_cast
      ring

lemma evaluate_bound_aux (X : Externals) (h : Heap) (s : KDEConfig) (querySet : Mat)
    (rt : ℕ) (hs : s.referenceTree = some rt)
    (N : ℕ) (hN : (h.dataMat rt).length = N) (hNpos : 0 < N)
    (hperm : (h.dataTree rt).pts.Perm (List.range N))
    (hrel : 0 ≤ s.relError) (habs : 0 ≤ s.absError)
    (hK : ∀ t, 0 ≤ X.K t)
    (hinj : Function.Injective (X.buildTree querySet).2.1)
    (hval : ValidOn
      (KDE.mkEnv X (h.dataMat rt) (X.buildTree querySet).2.2 s.relError s.absError
        (X.buildTree querySet).2.1)
      (X.buildTree querySet).1 (h.dataTree rt))
    (hnd : (X.buildTree querySet).1.pts.Nodup)
    (q : ℕ) (hq : q ∈ (X.buildTree querySet).1.pts)
    (out : ℕ → ℚ) (hout : KDE.Evaluate X h s querySet = Except.ok out) :
    |out ((X.buildTree querySet).2.1 q) -
        exactDensity X (X.buildTree querySet).2.2 (h.dataMat rt) N q| ≤
      s.absError + s.relError *
        exactDensity X (X.buildTree querySet).2.2 (h.dataMat rt) N q := by
  rw [KDE.Evaluate, hs] at hout
  have hout2 := Except.ok.inj hout
  subst hout2
  set E := KDE.mkEnv X (h.dataMat rt) (X.buildTree querySet).2.2 s.relError s.absError
    (X.buildTree querySet).2.1 with hE
  set Q := (X.buildTree querySet).1
  set R := h.dataTree rt
  have hbase := traverse_bound E hrel habs hK hinj Q hnd q hq R (fun _ => 0) hval
  simp only [sub_zero] at hbase
  set SN := ((List.range N).map fun r =>
    X.K (X.dist (X.buildTree querySet).2.2 (h.dataMat rt) q r)).sum with hSN
  have hcontrib : contribExact E q R.pts = SN := by
    rw [contribExact, hSN]
    exact (hperm.map _).sum_eq
  have hrhs : (R.pts.map fun r => E.absError + E.relError * E.K (E.d q r)).sum =
      (N : ℚ) * s.absError + s.relError * SN := by
    have hp2 := (hperm.map fun r => E.absError + E.relError * E.K (E.d q r)).sum_eq
    rw [hp2, sum_map_add_mul, List.length_range]
    rfl
  rw [hcontrib, hrhs] at hbase
  set T := traverse E Q R (fun _ => 0) (E.oldFromNew q) with hT
  have hTgoal : traverse E Q R (fun _ => 0) ((X.buildTree querySet).2.1 q) = T := rfl
  have hNQ : (0 : ℚ) < (N : ℚ) := by exact_mod_cast hNpos
  have hexact : exactDensity X (X.buildTree querySet).2.2 (h.dataMat rt) N q =
      SN / (N : ℚ) := rfl
  simp only [hN, hTgoal, hexact]
  have habsdiv : |T / (N : ℚ) - SN / (N : ℚ)| = |T - SN| / (N : ℚ) := by
    rw [div_sub_div_same, abs_div, abs_of_pos hNQ]
  rw [habsdiv, div_le_iff₀ hNQ]
  calc |T - SN| ≤ (N : ℚ) * s.absError + s.relError * SN := hbase
    _ = (s.absError + s.relError * (SN / (N : ℚ))) * (N : ℚ) := by
        field_simp
        ring

/-- Claim C1: for every reference dataset, query dataset, bandwidth and
configuration with absError, relError nonnegative, and for every query point
of the query tree, the density KDE::Evaluate returns for it (delivered at the
output position given by oldFromNewQueries) deviates from the brute-force
density, the sum of kernel.evaluate(distance(q, r)) over all reference points
divided by the reference count, by at most absError + relError times that
brute-force density.  Hypotheses: the external bounding-region computation is
valid, the kernel is nonnegative, the query tree partitions its points
without duplication, and the reference tree holds the N reference points. -/
theorem kde_evaluate_error_bound (X : Externals) (h : Heap) (s : KDEConfig)
    (querySet : Mat) (rt : ℕ) (hs : s.referenceTree = some rt)
    (N : ℕ) (hN : (h.dataMat rt).length = N) (hNpos : 0 < N)
    (hperm : (h.dataTree rt).pts.Perm (List.range N))
    (hrel : 0 ≤ s.relError) (habs : 0 ≤ s.absError)
    (hK : ∀ t, 0 ≤ X.K t)
    (hinj : Function.Injective (X.buildTree querySet).2.1)
    (hval : ValidOn
      (KDE.mkEnv X (h.dataMat rt) (X.buildTree querySet).2.2 s.relError s.absError
        (X.buildTree querySet).2.1)
      (X.buildTree querySet).1 (h.dataTree rt))
    (hnd : (X.buildTree querySet).1.pts.Nodup)
    (q : ℕ) (hq : q ∈ (X.buildTree querySet).1.pts)
    (out : ℕ → ℚ) (hout : KDE.Evaluate X h s querySet = Except.ok out) :
    |out ((X.buildTree querySet).2.1 q) -
        exactDensity X (X.buildTree querySet).2.2 (h.dataMat rt) N q| ≤
      s.absError + s.relError *
        exactDensity X (X.buildTree querySet).2.2 (h.dataMat rt) N q :=
  evaluate_bound_aux X h s querySet rt hs N hN hNpos hperm hrel habs hK hinj hval
    hnd q hq out hout

/-- Claim C2: with absError = relError = 0, KDE::Evaluate produces, for each
query point, exactly the brute-force value: the sum of
kernel.evaluate(distance(q, r)) over all reference points divided by the
reference count (the accumulator is divided by the reference-set cardinality
after traversal, kde_impl.hpp:183).  Exact rational arithmetic stands in for
floating point, so the match is exact. -/
theorem kde_evaluate_exact_at_zero_tolerance (X : Externals) (h : Heap)
    (s : KDEConfig) (querySet : Mat) (rt : ℕ) (hs : s.referenceTree = some rt)
    (N : ℕ) (hN : (h.dataMat rt).length = N) (hNpos : 0 < N)
    (hperm : (h.dataTree rt).pts.Perm (List.range N))
    (hrel0 : s.relError = 0) (habs0 : s.absError = 0)
    (hK : ∀ t, 0 ≤ X.K t)
    (hinj : Function.Injective (X.buildTree querySet).2.1)
    (hval : ValidOn
      (KDE.mkEnv X (h.dataMat rt) (X.buildTree querySet).2.2 s.relError s.absError
        (X.buildTree querySet).2.1)
      (X.buildTree querySet).1 (h.dataTree rt))
    (hnd : (X.buildTree querySet).1.pts.Nodup)
    (q : ℕ) (hq : q ∈ (X.buildTree querySet).1.pts)
    (out : ℕ → ℚ) (hout : KDE.Evaluate X h s querySet = Except.ok out) :
    out ((X.buildTree querySet).2.1 q) =
      exactDensity X (X.buildTree querySet).2.2 (h.dataMat rt) N q := by
  have hb := evaluate_bound_aux X h s querySet rt hs N hN hNpos hperm
    (le_of_eq hrel0.symm) (le_of_eq habs0.symm) hK hinj hval hnd q hq out hout
  rw [hrel0, habs0] at hb
  simp only [zero_mul, add_zero] at hb
  have := abs_nonpos_iff.mp hb
  exact sub_eq_zero.mp this

/-- Claim C7: Evaluate returns densities in the original column
order: whenever the query tree reorders its backing dataset (tree query point
i is original point oldFromNew i, expressed by the hreorder hypothesis on the
metric), the value at position j of the output is an approximation, within
the configured tolerances, of the density of the original caller-side query
point j, for every original position j covered by the query tree. -/
theorem kde_evaluate_original_order (X : Externals) (h : Heap) (s : KDEConfig)
    (querySet : Mat) (rt : ℕ) (hs : s.referenceTree = some rt)
    (N : ℕ) (hN : (h.dataMat rt).length = N) (hNpos : 0 < N)
    (hperm : (h.dataTree rt).pts.Perm (List.range N))
    (hrel : 0 ≤ s.relError) (habs : 0 ≤ s.absError)
    (hK : ∀ t, 0 ≤ X.K t)
    (hinj : Function.Injective (X.buildTree querySet).2.1)
    (hval : ValidOn
      (KDE.mkEnv X (h.dataMat rt) (X.buildTree querySet).2.2 s.relError s.absError
        (X.buildTree querySet).2.1)
      (X.buildTree querySet).1 (h.dataTree rt))
    (hnd : (X.buildTree querySet).1.pts.Nodup)
    (hreorder : ∀ i r, X.dist (X.buildTree querySet).2.2 (h.dataMat rt) i r =
      X.dist querySet (h.dataMat rt) ((X.buildTree querySet).2.1 i) r)
    (j : ℕ) (hcover : ∃ q ∈ (X.buildTree querySet).1.pts,
      (X.buildTree querySet).2.1 q = j)
    (out : ℕ → ℚ) (hout : KDE.Evaluate X h s querySet = Except.ok out) :
    |out j - exactDensity X querySet (h.dataMat rt) N j| ≤
      s.absError + s.relError * exactDensity X querySet (h.dataMat rt) N j := by
  obtain ⟨q, hq, rfl⟩ := hcover
  have hb := evaluate_bound_aux X h s querySet rt hs N hN hNpos hperm hrel habs
    hK hinj hval hnd q hq out hout
  have hsame : exactDensity X (X.buildTree querySet).2.2 (h.dataMat rt) N q =
      exactDensity X querySet (h.dataMat rt) N ((X.buildTree querySet).2.1 q) := by
    rw [exactDensity, exactDensity]
    congr 1
    congr 1
    apply List.map_congr_left
    intro r hr
    rw [hreorder]
  rw [hsame] at hb
  exact hb

instance {ε α : Type} [DecidableEq ε] [DecidableEq α] :
    DecidableEq (Except ε α) := fun a b =>
  match a, b with
  | Except.error e, Except.error f =>
      if h : e = f then Decidable.isTrue (by rw [h])
      else Decidable.isFalse (fun hc => h (Except.error.inj hc))
  | Except.error _, Except.ok _ => Decidable.isFalse (fun hc => Except.noConfusion hc)
  | Except.ok _, Except.error _ => Decidable.isFalse (fun hc => Except.noConfusion hc)
  | Except.ok x, Except.ok y =>
      if h : x = y then Decidable.isTrue (by rw [h])
      else Decidable.isFalse (fun hc => h (Except.ok.inj hc))

/-- A fixed configuration used as the receiver of the mutator calls in the
validation theorems. -/
def baseConfig : KDEConfig :=
  { bandwidth := 1, relError := 1 / 2, absError := 1 / 2, breadthFirst := false,
    ownsReferenceTree := false, trained := false, referenceTree := none }

/-- Claim C3 (counterexample): constructing a KDE with relError = 1.5 does
NOT raise a ConfigurationError: the constructor (kde_impl.hpp:63-64) checks
only for negative tolerances, so KDE(bandwidth 1, relError 3/2, absError 0)
succeeds and stores relError = 3/2. -/
theorem kde_construct_accepts_large_relError :
    KDE.construct 1 (3 / 2 : ℚ) 0 false =
      Except.ok { bandwidth := 1, relError := 3 / 2, absError := 0,
                  breadthFirst := false, ownsReferenceTree := false,
                  trained := false, referenceTree := none } := by
  rw [KDE.construct, if_neg (by norm_num)]

/-- Claim C3 (amended): the constructor raises a fatal ConfigurationError for
relError = -0.1 and absError = -1 but accepts relError = 1.5 (it checks only
for negative values); the SetRelativeError mutator rejects -0.1 and 1.5
(valid range [0,1]) and SetAbsoluteError rejects -1; the values relError = 0,
relError = 1 and absError = 0 are accepted by the constructor and by the
mutators. -/
theorem kde_tolerance_validation :
    (KDE.construct 1 (-(1 / 10) : ℚ) 0 false =
      Except.error KDEError.configurationError) ∧
    (KDE.construct 1 0 (-1 : ℚ) false =
      Except.error KDEError.configurationError) ∧
    (KDE.construct 1 (3 / 2 : ℚ) 0 false =
      Except.ok { bandwidth := 1, relError := 3 / 2, absError := 0,
                  breadthFirst := false, ownsReferenceTree := false,
                  trained := false, referenceTree := none }) ∧
    (KDE.construct 1 0 0 false =
      Except.ok { bandwidth := 1, relError := 0, absError := 0,
                  breadthFirst := false, ownsReferenceTree := false,
                  trained := false, referenceTree := none }) ∧
    (KDE.construct 1 1 0 false =
      Except.ok { bandwidth := 1, relError := 1, absError := 0,
                  breadthFirst := false, ownsReferenceTree := false,
                  trained := false, referenceTree := none }) ∧
    (KDE.RelativeError baseConfig (-(1 / 10)) =
      Except.error KDEError.configurationError) ∧
    (KDE.RelativeError baseConfig (3 / 2) =
      Except.error KDEError.configurationError) ∧
    (KDE.AbsoluteError baseConfig (-1) =
      Except.error KDEError.configurationError) ∧
    (KDE.RelativeError baseConfig 0 = Except.ok { baseConfig with relError := 0 }) ∧
    (KDE.RelativeError baseConfig 1 = Except.ok { baseConfig with relError := 1 }) ∧
    (KDE.AbsoluteError baseConfig 0 = Except.ok { baseConfig with absError := 0 }) := by
  refine ⟨?_, ?_, ?_, ?_, ?_, ?_, ?_, ?_, ?_, ?_, ?_⟩
  · rw [KDE.construct, if_pos (by norm_num)]
  · rw [KDE.construct, if_pos (by norm_num)]
  · rw [KDE.construct, if_neg (by norm_num)]
  · rw [KDE.construct, if_neg (by norm_num)]
  · rw [KDE.construct, if_neg (by norm_num)]
  · rw [KDE.RelativeError, if_pos (by norm_num)]
  · rw [KDE.RelativeError, if_pos (by norm_num)]
  · rw [KDE.AbsoluteError, if_pos (by norm_num)]
  · rw [KDE.RelativeError, if_neg (by norm_num)]
  · rw [KDE.RelativeError, if_neg (by norm_num)]
  · rw [KDE.AbsoluteError, if_neg (by norm_num)]

/-- Trivial external collaborators used for closed instantiations: every
dataset becomes one leaf over its column indices with the identity reorder
map, the kernel is constantly 1, all distances are 0, and the region bounds
are the constants 1. -/
def X0 : Externals :=
  { buildTree := fun m => (KdTree.leaf (List.range m.length), id, m),
    buildRefTree := fun m => (KdTree.leaf (List.range m.length), m),
    K := fun _ => 1,
    dist := fun _ _ _ _ => 0,
    minB := fun _ _ _ _ => 1,
    maxB := fun _ _ _ _ => 1 }

/-- The empty heap: no tree has been allocated. -/
def emptyHeap : Heap :=
  { nextId := 0, live := [], dataMat := fun _ => [],
    dataTree := fun _ => KdTree.leaf [] }

/-- Claim C4 (code evidence): calling Evaluate on a freshly constructed,
never-trained KDE does not raise a PreconditionError.  kde_impl.hpp:165-214
never checks the trained flag; the call dereferences the uninitialized
referenceTree pointer, which is undefined behavior, so no error is raised
and no defined result is produced. -/
theorem kde_evaluate_untrained_undefined :
    KDE.construct 1 0 0 false =
      Except.ok { bandwidth := 1, relError := 0, absError := 0,
                  breadthFirst := false, ownsReferenceTree := false,
                  trained := false, referenceTree := none } ∧
    KDE.Evaluate X0 emptyHeap
        { bandwidth := 1, relError := 0, absError := 0, breadthFirst := false,
          ownsReferenceTree := false, trained := false, referenceTree := none }
        [[1]] = Except.error KDEError.undefinedBehavior ∧
    (Except.error KDEError.undefinedBehavior : Except KDEError (ℕ → ℚ)) ≠
      Except.error KDEError.preconditionError := by
  refine ⟨by rw [KDE.construct, if_neg (by norm_num)], rfl,
    fun hc => absurd (Except.error.inj hc) (by decide)⟩

/-- Claim C5: after Train(referenceDataset) the instance owns a freshly
allocated reference tree and is marked trained; after Train(externalTree) the
instance is marked trained, does not own the adopted tree, and the previously
owned tree (when the instance owned one) has been deallocated by that call. -/
theorem kde_train_ownership (X : Externals) (h : Heap) (s : KDEConfig)
    (referenceSet : Mat) (ext : ℕ) (hnd : h.live.Nodup) :
    ((KDE.Train X h s referenceSet).2.ownsReferenceTree = true ∧
     (KDE.Train X h s referenceSet).2.trained = true ∧
     (KDE.Train X h s referenceSet).2.referenceTree = some h.nextId ∧
     h.nextId ∈ (KDE.Train X h s referenceSet).1.live) ∧
    (∀ t, s.ownsReferenceTree = true → s.referenceTree = some t →
      (KDE.TrainTree h s ext).2.trained = true ∧
      (KDE.TrainTree h s ext).2.ownsReferenceTree = false ∧
      (KDE.TrainTree h s ext).2.referenceTree = some ext ∧
      t ∉ (KDE.TrainTree h s ext).1.live) ∧
    (s.ownsReferenceTree = false →
      (KDE.TrainTree h s ext).1 = h ∧
      (KDE.TrainTree h s ext).2.trained = true ∧
      (KDE.TrainTree h s ext).2.ownsReferenceTree = false ∧
      (KDE.TrainTree h s ext).2.referenceTree = some ext) := by
  refine ⟨⟨rfl, rfl, rfl, List.mem_cons_self _ _⟩, ?_, ?_⟩
  · intro t howns ht
    refine ⟨rfl, rfl, rfl, ?_⟩
    simp only [KDE.TrainTree, howns, ht, if_true]
    exact fun hmem => absurd rfl (hnd.mem_erase_iff.mp hmem).1
  · intro howns
    refine ⟨?_, rfl, rfl, rfl⟩
    simp [KDE.TrainTree, howns]

/-- Claim C6 (counterexample): no pair of KDE instances differing only in the
breadthFirst flag makes Evaluate perform different traversals.
kde_impl.hpp:180-182 constructs the DualTreeTraverser of the tree without
consulting the flag, so the scored node-pair sequence and the computed
densities are identical for both instances. -/
theorem kde_breadthFirst_unused_cx :
    ¬ ∃ (X : Externals) (h : Heap) (s : KDEConfig) (querySet : Mat)
        (b1 b2 : Bool),
      KDE.EvaluateTrace X h { s with breadthFirst := b1 } querySet ≠
        KDE.EvaluateTrace X h { s with breadthFirst := b2 } querySet ∨
      KDE.Evaluate X h { s with breadthFirst := b1 } querySet ≠
        KDE.Evaluate X h { s with breadthFirst := b2 } querySet := by
  rintro ⟨X, h, s, querySet, b1, b2, hc | hc⟩ <;> exact hc rfl

/-- Claim C6 (amended): the constructor stores the breadthFirst flag, but
Evaluate never consults it: it always constructs the same dual-tree
traverser, so two instances differing only in that flag score the same
node-pair sequence and produce the same densities. -/
theorem kde_breadthFirst_unused (X : Externals) (h : Heap) (s : KDEConfig)
    (querySet : Mat) (b1 b2 : Bool) :
    KDE.Evaluate X h { s with breadthFirst := b1 } querySet =
      KDE.Evaluate X h { s with breadthFirst := b2 } querySet ∧
    KDE.EvaluateTrace X h { s with breadthFirst := b1 } querySet =
      KDE.EvaluateTrace X h { s with breadthFirst := b2 } querySet :=
  ⟨rfl, rfl⟩

/-- Claim C8: copying a trained KDE that owns its reference tree allocates a
fresh tree with identical dataset and node structure (deep copy: distinct
object, equal contents), while copying a trained KDE that borrows its tree
shares the same pointer without taking ownership and leaves the heap
untouched; in both cases the kernel (bandwidth), the two tolerances, the
traversal flag and the trained flag are copied. -/
theorem kde_copy_semantics (h : Heap) (s : KDEConfig) (t : ℕ)
    (htr : s.trained = true) (hrt : s.referenceTree = some t)
    (hwf : t < h.nextId) :
    (s.ownsReferenceTree = true →
      (KDE.copy h s).2.referenceTree = some h.nextId ∧
      h.nextId ≠ t ∧
      (KDE.copy h s).1.dataMat h.nextId = h.dataMat t ∧
      (KDE.copy h s).1.dataTree h.nextId = h.dataTree t ∧
      (KDE.copy h s).2.ownsReferenceTree = true) ∧
    (s.ownsReferenceTree = false →
      (KDE.copy h s).2.referenceTree = some t ∧
      (KDE.copy h s).2.ownsReferenceTree = false ∧
      (KDE.copy h s).1 = h) ∧
    (KDE.copy h s).2.bandwidth = s.bandwidth ∧
    (KDE.copy h s).2.relError = s.relError ∧
    (KDE.copy h s).2.absError = s.absError ∧
    (KDE.copy h s).2.breadthFirst = s.breadthFirst ∧
    (KDE.copy h s).2.trained = true := by
  have hne : h.nextId ≠ t := fun hc => absurd (hc ▸ hwf) (lt_irrefl t)
  cases howns : s.ownsReferenceTree with
  | false =>
      have hcopy : KDE.copy h s = (h, s) := by simp [KDE.copy, htr, howns]
      refine ⟨fun hc => ?_, fun _ => ⟨?_, ?_, ?_⟩, ?_, ?_, ?_, ?_, ?_⟩
      · exact absurd hc (by simp)
      · rw [hcopy]; exact hrt
      · rw [hcopy]; exact howns
      · rw [hcopy]
      · rw [hcopy]
      · rw [hcopy]
      · rw [hcopy]
      · rw [hcopy]
      · rw [hcopy]; exact htr
  | true =>
      refine ⟨fun _ => ⟨?_, hne, ?_, ?_, ?_⟩, fun hc => ?_, ?_, ?_, ?_, ?_, ?_⟩
      · simp [KDE.copy, htr, howns, hrt]
      · simp [KDE.copy, htr, howns, hrt]
      · simp [KDE.copy, htr, howns, hrt]
      · simp [KDE.copy, htr, howns, hrt]
      · exact absurd hc (by simp)
      · simp [KDE.copy, htr, howns, hrt]
      · simp [KDE.copy, htr, howns, hrt]
      · simp [KDE.copy, htr, howns, hrt]
      · simp [KDE.copy, htr, howns, hrt]
      · simp [KDE.copy, htr, howns, hrt]

namespace LoadCSV

/-- Outcome of LoadCSV::TranposeParse (load_csv.hpp:141-157): either some
TranposeParseImpl call converged (returned true), or the attempt counter
reached inout.n_rows and the loop returned silently.  The payload is the
total number of TranposeParseImpl invocations made. -/
inductive TPOutcome where
  | success : ℕ → TPOutcome
  | gaveUp : ℕ → TPOutcome
deriving DecidableEq

/-- Number of TranposeParseImpl invocations recorded in an outcome. -/
def TPOutcome.calls : TPOutcome → ℕ
  | TPOutcome.success k => k
  | TPOutcome.gaveUp k => k

/-- The retry loop of LoadCSV::TranposeParse (load_csv.hpp:148-156), with the
result of the k-th TranposeParseImpl call abstracted as impl k (its file and
DatasetMapper state are not observable from the loop).  parseTime is the
attempt counter; each failed call increments it and the loop returns silently
when it reaches nRows.  The loop is given explicit fuel so that
non-termination is observable as none. -/
def tranposeLoop (impl : ℕ → Bool) (nRows : ℕ) : ℕ → ℕ → Option TPOutcome
  | 0, _ => none
  | fuel + 1, parseTime =>
      if impl parseTime then some (TPOutcome.success (parseTime + 1))
      else if parseTime + 1 = nRows then some (TPOutcome.gaveUp nRows)
      else tranposeLoop impl nRows fuel (parseTime + 1)

/-- LoadCSV::TranposeParse: run the retry loop from attempt counter 0. -/
def TranposeParse (impl : ℕ → Bool) (nRows fuel : ℕ) : Option TPOutcome :=
  tranposeLoop impl nRows fuel 0

lemma tranposeLoop_total (impl : ℕ → Bool) (nRows : ℕ) :
    ∀ (fuel parseTime : ℕ), parseTime < nRows → nRows ≤ parseTime + fuel →
      ∃ o, tranposeLoop impl nRows fuel parseTime = some o ∧
        TPOutcome.calls o ≤ nRows := by
  intro fuel
  induction fuel with
  | zero =>
      intro parseTime hlt hle
      exact absurd (lt_of_lt_of_le hlt hle) (by simp)
  | succ f ih =>
      intro parseTime hlt hle
      rw [tranposeLoop]
      by_cases himpl : impl parseTime
      · exact ⟨TPOutcome.success (parseTime + 1), by rw [if_pos himpl], hlt⟩
      · rw [if_neg himpl]
        by_cases hctr : parseTime + 1 = nRows
        · exact ⟨TPOutcome.gaveUp nRows, by rw [if_pos hctr], le_refl _⟩
        · rw [if_neg hctr]
          exact ih (parseTime + 1) (lt_of_le_of_ne hlt hctr) (by omega)

lemma tranposeLoop_allFail (impl : ℕ → Bool) (nRows : ℕ)
    (hfail : ∀ k, impl k = false) :
    ∀ (fuel parseTime : ℕ), parseTime < nRows → nRows ≤ parseTime + fuel →
      tranposeLoop impl nRows fuel parseTime = some (TPOutcome.gaveUp nRows) := by
  intro fuel
  induction fuel with
  | zero =>
      intro parseTime hlt hle
      exact absurd (lt_of_lt_of_le hlt hle) (by simp)
  | succ f ih =>
      intro parseTime hlt hle
      rw [tranposeLoop, if_neg (by rw [hfail parseTime]; exact Bool.false_ne_true)]
      by_cases hctr : parseTime + 1 = nRows
      · rw [if_pos hctr]
      · rw [if_neg hctr]
        exact ih (parseTime + 1) (lt_of_le_of_ne hlt hctr) (by omega)

lemma tranposeLoop_zero_fuel_any (impl : ℕ → Bool)
    (hfail : ∀ k, impl k = false) :
    ∀ (fuel parseTime : ℕ), tranposeLoop impl 0 fuel parseTime = none := by
  intro fuel
  induction fuel with
  | zero => intro parseTime; rfl
  | succ f ih =>
      intro parseTime
      rw [tranposeLoop, if_neg (by rw [hfail parseTime]; exact Bool.false_ne_true),
        if_neg (Nat.succ_ne_zero parseTime)]
      exact ih (parseTime + 1)

/-- Claim C9 (counterexample): the retry loop of TranposeParse is NOT bounded
by nRows + 1 invocations and need not terminate: when inout.n_rows = 0 the
guard parseTime == n_rows is tested only after the counter has been
incremented past 0, so it can never fire, and when every TranposeParseImpl
attempt fails the loop is still running after 5 and even after 1000
invocations, far beyond the claimed bound of n_rows + 1 = 1 (by
tranposeLoop_zero_fuel_any it exhausts any amount of fuel). -/
theorem tranposeParse_unbounded_at_zero_rows :
    TranposeParse (fun _ => false) 0 5 = none ∧
    TranposeParse (fun _ => false) 0 1000 = none :=
  ⟨tranposeLoop_zero_fuel_any (fun _ => false) (fun _ => rfl) 5 0,
   tranposeLoop_zero_fuel_any (fun _ => false) (fun _ => rfl) 1000 0⟩

/-- Claim C9 (amended): whenever inout.n_rows is at least 1, the retry loop of
LoadCSV::TranposeParse terminates after at most n_rows invocations of
TranposeParseImpl (in particular at most n_rows + 1), and when every attempt
fails the counter reaches n_rows and the loop returns silently, raising no
error.  When n_rows = 0 the counter guard can never fire and the loop
terminates only if some TranposeParseImpl call returns true. -/
theorem tranposeParse_bounded (impl : ℕ → Bool) (nRows : ℕ) (h1 : 1 ≤ nRows) :
    (∃ o, TranposeParse impl nRows nRows = some o ∧ TPOutcome.calls o ≤ nRows) ∧
    ((∀ k, impl k = false) →
      TranposeParse impl nRows nRows = some (TPOutcome.gaveUp nRows)) := by
  constructor
  · exact tranposeLoop_total impl nRows nRows 0 h1 (by omega)
  · intro hfail
    exact tranposeLoop_allFail impl nRows hfail nRows 0 h1 (by omega)

end LoadCSV

namespace ItemMeanNormalization

/-- One entry of a coordinate-list rating matrix: a column (user, item,
rating). -/
structure Rating where
  user : ℕ
  item : ℕ
  rating : ℚ
deriving DecidableEq

/-- Sum of the ratings of item i (the accumulation loop of
ItemMeanNormalization::Normalize, item_mean_normalization.hpp:43-48). -/
def itemSum (data : List Rating) (i : ℕ) : ℚ :=
  ((data.filter fun p => p.item = i).map Rating.rating).sum

/-- Number of ratings of item i. -/
def ratingNum (data : List Rating) (i : ℕ) : ℕ :=
  (data.filter fun p => p.item = i).length

/-- Mean rating of item i, 0 when the item has no rating
(item_mean_normalization.hpp:50-55). -/
def itemMean (data : List Rating) (i : ℕ) : ℚ :=
  if ratingNum data i ≠ 0 then itemSum data i / (ratingNum data i : ℚ) else 0

/-- ItemMeanNormalization::Normalize (item_mean_normalization.hpp:35-60):
subtracts from each rating the mean rating of its item, and stores the item
means.  Returns the normalized coordinate list together with the stored
itemMean table. -/
def Normalize (data : List Rating) : List Rating × (ℕ → ℚ) :=
  (data.map fun p => { p with rating := p.rating - itemMean data p.item },
   itemMean data)

/-- ItemMeanNormalization::Denormalize (item_mean_normalization.hpp:84-89):
adds the stored item mean back (the user argument is unused, as in the
source). -/
def Denormalize (mean : ℕ → ℚ) (_user item : ℕ) (rating : ℚ) : ℚ :=
  rating + mean item

lemma map_sub_add_mean (mean : ℕ → ℚ) (l : List Rating) :
    ((l.map fun p => { p with rating := p.rating - mean p.item }).map
      fun p => { p with rating := p.rating + mean p.item }) = l := by
  induction l with
  | nil => rfl
  | cons a t ih =>
      simp only [List.map_cons, ih, List.cons.injEq, and_true]
      cases a with
      | mk u i r => simp

/-- Claim C10: for every coordinate-list rating matrix, applying Normalize and
then, entry by entry, Denormalize(user, item, normalizedRating) restores every
original rating exactly (in exact rational arithmetic): Normalize subtracts
from each rating the mean rating of its item (0 for items with no ratings)
and Denormalize adds the stored item mean back. -/
theorem normalize_denormalize_roundtrip (data : List Rating) :
    ((Normalize data).1.map fun p =>
      { p with rating := Denormalize (Normalize data).2 p.user p.item p.rating }) =
      data := by
  rw [Normalize]
  exact map_sub_add_mean (itemMean data) data

end ItemMeanNormalization

/-!
Concrete instantiations used by the witness theorems: a reference set of two
one-dimensional points, a query set of one point, trained through
KDE.Train so that the heap owns one reference tree.
-/

/-- Reference set of the witness scenario: two columns. -/
def refSetW : Mat := [[0], [0]]

/-- Query set of the witness scenario: one column. -/
def querySetW : Mat := [[0]]

/-- A freshly constructed configuration (bandwidth 1, zero tolerances). -/
def freshW : KDEConfig :=
  { bandwidth := 1, relError := 0, absError := 0, breadthFirst := false,
    ownsReferenceTree := false, trained := false, referenceTree := none }

/-- Heap after training on the witness reference set. -/
def heapW : Heap := (KDE.Train X0 emptyHeap freshW refSetW).1

/-- Configuration after training on the witness reference set. -/
def stateW : KDEConfig := (KDE.Train X0 emptyHeap freshW refSetW).2

/-- The density function Evaluate returns in the witness scenario. -/
def outW : ℕ → ℚ := fun j =>
  match KDE.Evaluate X0 heapW stateW querySetW with
  | Except.ok f => f j
  | Except.error _ => 0

theorem kde_evaluate_error_bound_witness :
    0 < 2 ∧
    |outW ((X0.buildTree querySetW).2.1 0) -
        exactDensity X0 (X0.buildTree querySetW).2.2 (heapW.dataMat 0) 2 0| ≤
      stateW.absError + stateW.relError *
        exactDensity X0 (X0.buildTree querySetW).2.2 (heapW.dataMat 0) 2 0 :=
  ⟨by norm_num,
    kde_evaluate_error_bound X0 heapW stateW querySetW 0 rfl 2 rfl (by norm_num)
      (List.Perm.refl _) (le_refl 0) (le_refl 0) (fun _ => by norm_num [X0])
      Function.injective_id
      (validOn_of_pairOk _ (fun _ _ q _ r _ => ⟨le_refl 1, le_refl 1⟩) _ _)
      (by decide) 0 (by decide) outW rfl⟩

theorem kde_evaluate_exact_at_zero_tolerance_witness :
    0 < 2 ∧
    outW ((X0.buildTree querySetW).2.1 0) =
      exactDensity X0 (X0.buildTree querySetW).2.2 (heapW.dataMat 0) 2 0 :=
  ⟨by norm_num,
    kde_evaluate_exact_at_zero_tolerance X0 heapW stateW querySetW 0 rfl 2 rfl
      (by norm_num) (List.Perm.refl _) rfl rfl (fun _ => by norm_num [X0])
      Function.injective_id
      (validOn_of_pairOk _ (fun _ _ q _ r _ => ⟨le_refl 1, le_refl 1⟩) _ _)
      (by decide) 0 (by decide) outW rfl⟩

theorem kde_evaluate_original_order_witness :
    0 < 2 ∧
    |outW 0 - exactDensity X0 querySetW (heapW.dataMat 0) 2 0| ≤
      stateW.absError + stateW.relError *
        exactDensity X0 querySetW (heapW.dataMat 0) 2 0 :=
  ⟨by norm_num,
    kde_evaluate_original_order X0 heapW stateW querySetW 0 rfl 2 rfl
      (by norm_num) (List.Perm.refl _) (le_refl 0) (le_refl 0)
      (fun _ => by norm_num [X0]) Function.injective_id
      (validOn_of_pairOk _ (fun _ _ q _ r _ => ⟨le_refl 1, le_refl 1⟩) _ _)
      (by decide) (fun _ _ => rfl) 0 ⟨0, by decide, rfl⟩ outW rfl⟩

theorem kde_train_ownership_witness :
    heapW.live.Nodup ∧
    (((KDE.Train X0 heapW stateW refSetW).2.ownsReferenceTree = true ∧
      (KDE.Train X0 heapW stateW refSetW).2.trained = true ∧
      (KDE.Train X0 heapW stateW refSetW).2.referenceTree = some heapW.nextId ∧
      heapW.nextId ∈ (KDE.Train X0 heapW stateW refSetW).1.live) ∧
     (∀ t, stateW.ownsReferenceTree = true → stateW.referenceTree = some t →
       (KDE.TrainTree heapW stateW 7).2.trained = true ∧
       (KDE.TrainTree heapW stateW 7).2.ownsReferenceTree = false ∧
       (KDE.TrainTree heapW stateW 7).2.referenceTree = some 7 ∧
       t ∉ (KDE.TrainTree heapW stateW 7).1.live) ∧
     (stateW.ownsReferenceTree = false →
       (KDE.TrainTree heapW stateW 7).1 = heapW ∧
       (KDE.TrainTree heapW stateW 7).2.trained = true ∧
       (KDE.TrainTree heapW stateW 7).2.ownsReferenceTree = false ∧
       (KDE.TrainTree heapW stateW 7).2.referenceTree = some 7)) :=
  ⟨by decide, kde_train_ownership X0 heapW stateW refSetW 7 (by decide)⟩

theorem kde_copy_semantics_witness :
    stateW.trained = true ∧
    ((stateW.ownsReferenceTree = true →
      (KDE.copy heapW stateW).2.referenceTree = some heapW.nextId ∧
      heapW.nextId ≠ 0 ∧
      (KDE.copy heapW stateW).1.dataMat heapW.nextId = heapW.dataMat 0 ∧
      (KDE.copy heapW stateW).1.dataTree heapW.nextId = heapW.dataTree 0 ∧
      (KDE.copy heapW stateW).2.ownsReferenceTree = true) ∧
     (stateW.ownsReferenceTree = false →
      (KDE.copy heapW stateW).2.referenceTree = some 0 ∧
      (KDE.copy heapW stateW).2.ownsReferenceTree = false ∧
      (KDE.copy heapW stateW).1 = heapW) ∧
     (KDE.copy heapW stateW).2.bandwidth = stateW.bandwidth ∧
     (KDE.copy heapW stateW).2.relError = stateW.relError ∧
     (KDE.copy heapW stateW).2.absError = stateW.absError ∧
     (KDE.copy heapW stateW).2.breadthFirst = stateW.breadthFirst ∧
     (KDE.copy heapW stateW).2.trained = true) :=
  ⟨rfl, kde_copy_semantics heapW stateW 0 rfl rfl (by decide)⟩

theorem tranposeParse_bounded_witness :
    1 ≤ 2 ∧
    ((∃ o, LoadCSV.TranposeParse (fun _ => false) 2 2 = some o ∧
        LoadCSV.TPOutcome.calls o ≤ 2) ∧
     ((∀ k, (fun _ => false : ℕ → Bool) k = false) →
       LoadCSV.TranposeParse (fun _ => false) 2 2 =
         some (LoadCSV.TPOutcome.gaveUp 2))) :=
  ⟨by norm_num, LoadCSV.tranposeParse_bounded (fun _ => false) 2 (by norm_num)⟩

end Mlpack
